import Mathlib

/-!
# Verification of the vecna filter builder

Shallow embedding of the vecna schema-validated filter builder
(`api.go`, `builder.go`, the spec converter) together with proofs about
its deferred-error protocol, validation rules and spec conversion.

Go `*Filter` receivers are modelled as `Option Filter` where nilness is
observable; `any` values are modelled by the closed `Value` type, in which
a JSON-decoded generic slice (`[]any`) and a concrete pre-typed slice
(e.g. `[]string`) are distinguished, mirroring the `value.([]any)` type
assertion in the source. Go `error` values are modelled structurally by
`VErr`, keeping the sentinel wrapped by each `fmt.Errorf` and the formatted
message text.
-/

namespace Vecna

/-- Filter operators, from the `Op` enumeration (`api.go`).
The constants `Nin`, `Like`, `Contains` and `Not` are used throughout
`builder.go` but their declarations are absent from the provided sources.
Modelled from the spec: "Operator: closed enumeration
{Eq, Ne, Gt, Gte, Lt, Lte, In, NotIn, Like, Contains, And, Or, Not}". -/
inductive Op where
  | Eq | Ne | Gt | Gte | Lt | Lte | In | Nin | Like | Contains | And | Or | Not
deriving DecidableEq, Repr

/-- `Op.String` from `api.go`: the lowercase token of each operator.
The four tokens absent from the provided `api.go` (`nin`, `like`,
`contains`, `not`) are modelled from the spec's operator list and the
repository's own spec tests. -/
def Op.toString : Op → String
  | .Eq => "eq"
  | .Ne => "ne"
  | .Gt => "gt"
  | .Gte => "gte"
  | .Lt => "lt"
  | .Lte => "lte"
  | .In => "in"
  | .Nin => "nin"
  | .Like => "like"
  | .Contains => "contains"
  | .And => "and"
  | .Or => "or"
  | .Not => "not"

/-- `FieldKind` from `api.go`: coarse type categories for validation. -/
inductive FieldKind where
  | KindString | KindInt | KindFloat | KindBool | KindSlice | KindUnknown
deriving DecidableEq, Repr

/-- `FieldKind.String` from `api.go`. -/
def FieldKind.toString : FieldKind → String
  | .KindString => "string"
  | .KindInt => "int"
  | .KindFloat => "float"
  | .KindBool => "bool"
  | .KindSlice => "slice"
  | .KindUnknown => "unknown"

/-- Structural model of the `error` values produced by vecna: each
constructor records which sentinel (`ErrFieldNotFound`, `ErrInvalidFilter`)
the `fmt.Errorf("%w: ...")` call wraps together with the formatted text. -/
inductive VErr where
  | fieldNotFound (msg : String)
  | invalidFilter (msg : String)
deriving DecidableEq, Repr

/-- Model of Go `any` values flowing through filters.  `vseq` is a generic
decoded slice (`[]any`); `vtyped` is a concrete pre-typed slice (such as
`[]string`), which fails the `value.([]any)` assertion but still has
reflect kind `Slice`.  `vnull` is Go `nil`. -/
inductive Value where
  | vnull
  | vstr (s : String)
  | vint (n : Int)
  | vfloat (numerator : Int) (denominator : Nat)
  | vbool (b : Bool)
  | vseq (elems : List Value)
  | vtyped (elems : List Value)

/-- `FieldSpec` from `api.go`: one filterable field of the schema. -/
structure FieldSpec where
  Name   : String
  GoName : String
  Kind   : FieldKind
deriving DecidableEq, Repr

/-- `Spec` from `api.go`: the metadata schema extracted from `T`. -/
structure Spec where
  TypeName : String
  Fields   : List FieldSpec
deriving DecidableEq, Repr

/-- `Spec.Field` from `api.go`: first entry with the given name, if any. -/
def Spec.Field (s : Spec) (name : String) : Option FieldSpec :=
  s.Fields.find? (fun f => f.Name = name)

/-- `Filter` from `api.go`: a condition leaf or a logical group.  Children
are the (non-nil) child pointers; `err` is the deferred error. -/
inductive Filter where
  | mk (op : Op) (field : String) (value : Value) (children : List Filter)
       (err : Option VErr)

/-- `Filter.Op` accessor. -/
def Filter.op : Filter → Op
  | .mk o _ _ _ _ => o

/-- `Filter.Field` accessor. -/
def Filter.field : Filter → String
  | .mk _ f _ _ _ => f

/-- `Filter.Value` accessor. -/
def Filter.value : Filter → Value
  | .mk _ _ v _ _ => v

/-- `Filter.Children` accessor. -/
def Filter.children : Filter → List Filter
  | .mk _ _ _ cs _ => cs

/-- The node's own deferred error slot. -/
def Filter.err : Filter → Option VErr
  | .mk _ _ _ _ e => e

mutual

/-- Body of `Filter.Err` (`api.go`) on a non-nil receiver: return the
node's own error if set, otherwise the first error found scanning the
children left to right, recursing into each. -/
def Filter.Err : Filter → Option VErr
  | .mk _ _ _ cs e =>
    match e with
    | some e0 => some e0
    | none => errList cs

/-- The `for _, child := range f.children` loop of `Filter.Err`: return
the first child subtree error, scanning left to right. -/
def errList : List Filter → Option VErr
  | [] => none
  | c :: rest =>
    match Filter.Err c with
    | some e => some e
    | none => errList rest

end

/-- `Filter.Err` on the Go `*Filter` receiver: a nil pointer reports no
error. -/
def ErrP : Option Filter → Option VErr
  | none => none
  | some f => f.Err

/-! ## Schema extraction (`New`, `builder.go`) -/

/-- Coarse kind categories reported by the sentinel introspection
collaborator (`sentinel.KindScalar`, `sentinel.KindSlice`, anything else). -/
inductive SKind where
  | scalar | slice | other
deriving DecidableEq, Repr

/-- One field descriptor from `sentinel.TryInspect`: declared Go name,
the `json` tag if present, the coarse kind, and the primitive type name. -/
structure FieldMeta where
  name     : String
  jsonTag  : Option String
  kind     : SKind
  typeName : String
deriving DecidableEq, Repr

/-- `strings.HasPrefix`, stated on the character lists underlying the
strings so that it evaluates inside the kernel. -/
def strHasPrefix (s p : String) : Bool :=
  p.data.isPrefixOf s.data

/-- The head component of `strings.Split(s, ",")`: the text before the
first comma (the whole string when no comma occurs), stated on character
lists so that it evaluates inside the kernel. -/
def headBeforeComma (s : String) : String :=
  String.mk (s.data.takeWhile (fun c => c ≠ ','))

/-- `resolveFieldName` from `builder.go`: json tag name component (the
part before the first comma of the tag) if present and non-empty, else
the Go field name.  `strings.Split` always returns a non-empty list, so
the `len(parts) > 0` guard of the source is always true. -/
def resolveFieldName (field : FieldMeta) : String :=
  match field.jsonTag with
  | some jsonTag =>
    let p := headBeforeComma jsonTag
    if p ≠ "" then p else field.name
  | none => field.name

/-- `resolveFieldKind` from `builder.go`: classify sentinel kinds into
vecna field kinds by inspecting the primitive type name for scalars. -/
def resolveFieldKind (kind : SKind) (typeName : String) : FieldKind :=
  match kind with
  | .scalar =>
    if strHasPrefix typeName "int" ∨ strHasPrefix typeName "uint" then
      .KindInt
    else if strHasPrefix typeName "float" then .KindFloat
    else if typeName = "bool" then .KindBool
    else if typeName = "string" then .KindString
    else .KindUnknown
  | .slice => .KindSlice
  | .other => .KindUnknown

/-- `Builder` from `builder.go`: the extracted schema plus the
name-to-entry index map used by `Where`. -/
structure Builder where
  spec   : Spec
  fields : String → Option FieldSpec

/-- One step of the field loop in `New`: skip names resolving to `-` or
empty, otherwise append a `FieldSpec` and insert it into the index map
(a Go map insert, so a later field with the same name overwrites). -/
def newStep (acc : List FieldSpec × (String → Option FieldSpec))
    (field : FieldMeta) : List FieldSpec × (String → Option FieldSpec) :=
  let name := resolveFieldName field
  if name = "-" ∨ name = "" then acc
  else
    let fs : FieldSpec :=
      { Name := name, GoName := field.name
        Kind := resolveFieldKind field.kind field.typeName }
    (acc.1 ++ [fs], fun n => if n = name then some fs else acc.2 n)

/-- `New` from `builder.go` (successful-inspection path): fold the
sentinel field descriptors into the schema list and the index map. -/
def New (typeName : String) (metaFields : List FieldMeta) : Builder :=
  let acc := metaFields.foldl newStep ([], fun _ => none)
  { spec := { TypeName := typeName, Fields := acc.1 }, fields := acc.2 }

/-! ## Fluent builder (`builder.go`) -/

/-- `FieldBuilder` from `builder.go`: a handle bound to one field name,
with either a resolved `FieldSpec` or a deferred error. -/
structure FieldBuilder where
  field : String
  spec  : Option FieldSpec
  err   : Option VErr

/-- `Builder.Where` from `builder.go`: resolve the field in the index; an
absent name yields a field builder carrying a deferred
`ErrFieldNotFound` wrap instead of raising. -/
def Builder.Where (b : Builder) (field : String) : FieldBuilder :=
  match b.fields field with
  | none =>
    { field := field, spec := none
      err := some (.fieldNotFound ("field not found: " ++ field)) }
  | some spec => { field := field, spec := some spec, err := none }

/-- `Builder.And` from `builder.go`: wrap the filters under a logical AND
node; no arity check. -/
def Builder.And (_b : Builder) (filters : List Filter) : Filter :=
  .mk .And "" .vnull filters none

/-- `Builder.Or` from `builder.go`: wrap the filters under a logical OR
node; no arity check. -/
def Builder.Or (_b : Builder) (filters : List Filter) : Filter :=
  .mk .Or "" .vnull filters none

/-- `Builder.Not` from `builder.go`: wrap exactly one filter. -/
def Builder.Not (_b : Builder) (filter : Filter) : Filter :=
  .mk .Not "" .vnull [filter] none

/-- `isComparisonOp` from `builder.go`. -/
def isComparisonOp (op : Op) : Bool :=
  op = .Gt ∨ op = .Gte ∨ op = .Lt ∨ op = .Lte

/-- `isNumericKind` from `builder.go`. -/
def isNumericKind (kind : FieldKind) : Bool :=
  kind = .KindInt ∨ kind = .KindFloat

/-- Whether a value's reflect kind is `Slice` (`[]any` and concrete typed
slices both qualify). -/
def Value.isSlice : Value → Bool
  | .vseq _ => true
  | .vtyped _ => true
  | _ => false

/-- `validateInValue` from `builder.go`: the In operator requires a slice
value. -/
def validateInValue (value : Value) : Option VErr :=
  if value.isSlice then none
  else some (.invalidFilter "In operator requires slice of values")

/-- The `"operator %s not valid for %s field %s"` message of
`validateValue`. -/
def opKindMsg (op : Op) (kind : FieldKind) (field : String) : String :=
  "operator " ++ op.toString ++ " not valid for " ++ kind.toString
    ++ " field " ++ field

/-- `FieldBuilder.validateValue` from `builder.go`: structural
compatibility of operator, field kind and value. -/
def FieldBuilder.validateValue (fb : FieldBuilder) (op : Op) (value : Value) :
    Option VErr :=
  match fb.spec with
  | none => none
  | some spec =>
    if op = .In ∨ op = .Nin then validateInValue value
    else if op = .Like ∧ spec.Kind ≠ .KindString then
      some (.invalidFilter (opKindMsg op spec.Kind fb.field))
    else if op = .Contains ∧ spec.Kind ≠ .KindSlice then
      some (.invalidFilter (opKindMsg op spec.Kind fb.field))
    else if isComparisonOp op ∧ ¬ isNumericKind spec.Kind then
      some (.invalidFilter (opKindMsg op spec.Kind fb.field))
    else none

/-- `FieldBuilder.makeFilter` from `builder.go`: short-circuit on a
deferred error (still recording operator, field and value), otherwise
validate and attach any validation error. -/
def FieldBuilder.makeFilter (fb : FieldBuilder) (op : Op) (value : Value) :
    Filter :=
  match fb.err with
  | some e => .mk op fb.field value [] (some e)
  | none =>
    match fb.validateValue op value with
    | some e => .mk op fb.field value [] (some e)
    | none => .mk op fb.field value [] none

/-- `FieldBuilder.Eq` from `builder.go`. -/
def FieldBuilder.Eq (fb : FieldBuilder) (value : Value) : Filter :=
  fb.makeFilter .Eq value

/-- `FieldBuilder.Ne` from `builder.go`. -/
def FieldBuilder.Ne (fb : FieldBuilder) (value : Value) : Filter :=
  fb.makeFilter .Ne value

/-- `FieldBuilder.Gt` from `builder.go`. -/
def FieldBuilder.Gt (fb : FieldBuilder) (value : Value) : Filter :=
  fb.makeFilter .Gt value

/-- `FieldBuilder.Gte` from `builder.go`. -/
def FieldBuilder.Gte (fb : FieldBuilder) (value : Value) : Filter :=
  fb.makeFilter .Gte value

/-- `FieldBuilder.Lt` from `builder.go`. -/
def FieldBuilder.Lt (fb : FieldBuilder) (value : Value) : Filter :=
  fb.makeFilter .Lt value

/-- `FieldBuilder.Lte` from `builder.go`. -/
def FieldBuilder.Lte (fb : FieldBuilder) (value : Value) : Filter :=
  fb.makeFilter .Lte value

/-- `FieldBuilder.In` from `builder.go`: the variadic arguments are
wrapped into one `[]any` slice before validation. -/
def FieldBuilder.In (fb : FieldBuilder) (values : List Value) : Filter :=
  fb.makeFilter .In (.vseq values)

/-- `FieldBuilder.Nin` from `builder.go`: variadic arguments wrapped into
one `[]any` slice. -/
def FieldBuilder.Nin (fb : FieldBuilder) (values : List Value) : Filter :=
  fb.makeFilter .Nin (.vseq values)

/-- `FieldBuilder.Like` from `builder.go`: the pattern parameter is a Go
`string`. -/
def FieldBuilder.Like (fb : FieldBuilder) (pattern : String) : Filter :=
  fb.makeFilter .Like (.vstr pattern)

/-- `FieldBuilder.Contains` from `builder.go`. -/
def FieldBuilder.Contains (fb : FieldBuilder) (value : Value) : Filter :=
  fb.makeFilter .Contains value

/-! ## Spec converter (`FromSpec` and helpers) -/

/-- `FilterSpec`: the serializable filter specification.  Child pointers
are modelled as the (non-nil) children list. -/
inductive FilterSpec where
  | mk (op : String) (field : String) (value : Value)
       (children : List FilterSpec)

/-- `FilterSpec.Op` accessor. -/
def FilterSpec.op : FilterSpec → String
  | .mk o _ _ _ => o

/-- `FilterSpec.Field` accessor. -/
def FilterSpec.field : FilterSpec → String
  | .mk _ f _ _ => f

/-- `FilterSpec.Value` accessor. -/
def FilterSpec.value : FilterSpec → Value
  | .mk _ _ v _ => v

/-- `FilterSpec.Children` accessor. -/
def FilterSpec.children : FilterSpec → List FilterSpec
  | .mk _ _ _ cs => cs

/-- `parseOp` from the spec-converter source file: case-sensitive token
dispatch; any unrecognized token (the `%q` format quotes it) is an
`ErrInvalidFilter` wrap. -/
def parseOp (s : String) : Except VErr Op :=
  match s with
  | "eq" => .ok .Eq
  | "ne" => .ok .Ne
  | "gt" => .ok .Gt
  | "gte" => .ok .Gte
  | "lt" => .ok .Lt
  | "lte" => .ok .Lte
  | "in" => .ok .In
  | "and" => .ok .And
  | "or" => .ok .Or
  | _ => .error (.invalidFilter ("unknown operator \"" ++ s ++ "\""))

/-- `fromInSpec` from the spec-converter source file: a generic decoded
slice is expanded element-wise into the variadic `In`; any other value
(including a concrete typed slice) is passed through as a single
argument. -/
def fromInSpec (fb : FieldBuilder) (value : Value) : Filter :=
  match value with
  | .vseq elems => fb.In elems
  | _ => fb.In [value]

/-- `fromFieldSpec` from the spec-converter source file: dispatch a field
operator to the fluent builder; the default branch reports an
unsupported field operator. -/
def Builder.fromFieldSpec (b : Builder) (op : Op) (field : String)
    (value : Value) : Filter :=
  let fb := b.Where field
  match op with
  | .Eq => fb.Eq value
  | .Ne => fb.Ne value
  | .Gt => fb.Gt value
  | .Gte => fb.Gte value
  | .Lt => fb.Lt value
  | .Lte => fb.Lte value
  | .In => fromInSpec fb value
  | _ =>
    .mk op field value []
      (some (.invalidFilter ("unsupported field operator " ++ op.toString)))

mutual

/-- Body of `FromSpec` on a non-nil spec: parse the operator token, then
dispatch logical operators to the `fromLogicalSpec` logic (inlined here
so the recursion is structural; the named wrapper is defined below) and
field operators to `fromFieldSpec`. -/
def Builder.fromSpecSome (b : Builder) : FilterSpec → Filter
  | .mk sop field value children =>
    match parseOp sop with
    | .error e => .mk .Eq "" .vnull [] (some e)
    | .ok op =>
      if op = .And ∨ op = .Or then
        if children.isEmpty then
          .mk op "" .vnull []
            (some (.invalidFilter
              (op.toString ++ " requires at least one child")))
        else
          let filters := b.fromSpecList children
          if op = .And then b.And filters else b.Or filters
      else b.fromFieldSpec op field value

/-- The `for i, child := range children` conversion loop of
`fromLogicalSpec`: convert each child spec in order. -/
def Builder.fromSpecList (b : Builder) : List FilterSpec → List Filter
  | [] => []
  | c :: rest => b.fromSpecSome c :: b.fromSpecList rest

end

/-- `fromLogicalSpec` from the spec-converter source file: zero children
is an arity error naming the operator; otherwise each child is converted
recursively and handed to `Builder.And`/`Builder.Or`.  Definitionally
equal to the logical branch of `fromSpecSome`. -/
def Builder.fromLogicalSpec (b : Builder) (op : Op)
    (children : List FilterSpec) : Filter :=
  if children.isEmpty then
    .mk op "" .vnull []
      (some (.invalidFilter (op.toString ++ " requires at least one child")))
  else
    let filters := b.fromSpecList children
    if op = .And then b.And filters else b.Or filters

/-- `FromSpec` from the spec-converter source file, on the Go
`*FilterSpec` receiver: a nil spec is an immediate `ErrInvalidFilter`. -/
def Builder.FromSpec (b : Builder) : Option FilterSpec → Filter
  | none => .mk .Eq "" .vnull [] (some (.invalidFilter "nil spec"))
  | some s => b.fromSpecSome s

/-! ## Specification-level definitions

These definitions follow the spec's words rather than the source; the
refinement theorems below compare the source embedding against them. -/

mutual

/-- Depth-first pre-order listing of a filter tree: the node itself,
then its children's subtrees left to right. -/
def preorder : Filter → List Filter
  | .mk o fl v cs e => .mk o fl v cs e :: preorderList cs

/-- Pre-order listing of a forest, left to right. -/
def preorderList : List Filter → List Filter
  | [] => []
  | c :: rest => preorder c ++ preorderList rest

end

/-- The spec's description of the tree-wide error check: the first
node-level error in depth-first pre-order, with no aggregation. -/
def firstErrPre (f : Filter) : Option VErr :=
  ((preorder f).filterMap Filter.err).head?

/-- A nesting context built from the `And`/`Or`/`Not` combinators: the
hole sits among given left and right sibling filters at each level. -/
inductive Ctx where
  | hole
  | inAnd (pre post : List Filter) (c : Ctx)
  | inOr (pre post : List Filter) (c : Ctx)
  | inNot (c : Ctx)

/-- Wrap a filter in a nesting context using the builder's combinators. -/
def plug (b : Builder) : Ctx → Filter → Filter
  | .hole, f => f
  | .inAnd pre post c, f => b.And (pre ++ plug b c f :: post)
  | .inOr pre post c, f => b.Or (pre ++ plug b c f :: post)
  | .inNot c, f => b.Not (plug b c f)

/-- All filters in the list pass the tree-wide error check. -/
def cleanFilters (l : List Filter) : Bool :=
  l.all (fun f => f.Err.isNone)

/-- All sibling filters of a nesting context pass the tree-wide error
check. -/
def Ctx.clean : Ctx → Bool
  | .hole => true
  | .inAnd pre post c => cleanFilters pre && cleanFilters post && c.clean
  | .inOr pre post c => cleanFilters pre && cleanFilters post && c.clean
  | .inNot c => c.clean

/-- The catalog entry a single sentinel field descriptor contributes, if
it is not excluded. -/
def entryOf (fm : FieldMeta) : Option FieldSpec :=
  let name := resolveFieldName fm
  if name = "-" ∨ name = "" then none
  else some ⟨name, fm.name, resolveFieldKind fm.kind fm.typeName⟩

/-- All catalog entries contributed by the sentinel descriptors, in
declaration order, with no duplicate rejection. -/
def entriesOf (metaFields : List FieldMeta) : List FieldSpec :=
  metaFields.filterMap entryOf

/-- The last entry in the list carrying the given external name. -/
def lastMatch (name : String) : List FieldSpec → Option FieldSpec
  | [] => none
  | e :: rest =>
    match lastMatch name rest with
    | some r => some r
    | none => if e.Name = name then some e else none

/-- Whether a value is the generic decoded slice form (`[]any`), the form
`fromInSpec` expands element-wise. -/
def Value.isGenericSeq : Value → Bool
  | .vseq _ => true
  | _ => false

/-- A concrete builder over the `testMetadata`-like shape used by the
repository's tests: a string, a float, an int and a slice field. -/
def bW : Builder :=
  New "testMetadata"
    [⟨"Category", some "category", .scalar, "string"⟩,
     ⟨"Score", some "score", .scalar, "float64"⟩,
     ⟨"Count", some "count", .scalar, "int"⟩,
     ⟨"Tags", some "tags", .slice, "[]string"⟩]

/-- Two declared fields whose json tags resolve to the same external name
`x`: the first an int field, the second a string field. -/
def dupMeta : List FieldMeta :=
  [⟨"A", some "x", .scalar, "int64"⟩,
   ⟨"B", some "x", .scalar, "string"⟩]

/-! ## Helper lemmas -/

theorem errList_append (l1 l2 : List Filter) :
    errList (l1 ++ l2) =
      match errList l1 with
      | some e => some e
      | none => errList l2 := by
  induction l1 with
  | nil => simp [errList]
  | cons c rest ih =>
    simp only [List.cons_append, errList]
    cases c.Err <;> simp [ih]

theorem errList_of_clean {l : List Filter} (h : cleanFilters l = true) :
    errList l = none := by
  induction l with
  | nil => simp [errList]
  | cons c rest ih =>
    simp only [cleanFilters, List.all_cons, Bool.and_eq_true] at h
    have hc : c.Err = none := Option.isNone_iff_eq_none.mp h.1
    simp [errList, hc, ih (by simpa [cleanFilters] using h.2)]

theorem errList_mem_some {l : List Filter} {f : Filter} {e : VErr}
    (hmem : f ∈ l) (hf : f.Err = some e) : (errList l).isSome = true := by
  induction l with
  | nil => cases hmem
  | cons c rest ih =>
    rcases List.mem_cons.mp hmem with h | h
    · subst h
      simp [errList, hf]
    · simp only [errList]
      cases hc : c.Err <;> simp [ih h]

mutual

theorem Err_eq_preorder_firstErr (f : Filter) :
    f.Err = ((preorder f).filterMap Filter.err).head? := by
  cases f with
  | mk o fl v cs e =>
    cases e with
    | some e0 => simp [Filter.Err, preorder, Filter.err, List.filterMap_cons]
    | none =>
      simp only [Filter.Err, preorder, Filter.err, List.filterMap_cons]
      exact errList_eq_preorder_firstErr cs

theorem errList_eq_preorder_firstErr (cs : List Filter) :
    errList cs = ((preorderList cs).filterMap Filter.err).head? := by
  cases cs with
  | nil => simp [errList, preorderList]
  | cons c rest =>
    simp only [errList, preorderList, List.filterMap_append,
      List.head?_append]
    rw [← Err_eq_preorder_firstErr c, ← errList_eq_preorder_firstErr rest]
    cases c.Err <;> simp [Option.or]

end

theorem plug_Err_of_clean (b : Builder) (ctx : Ctx) (f : Filter) (e : VErr)
    (hf : f.Err = some e) (hc : ctx.clean = true) :
    (plug b ctx f).Err = some e := by
  induction ctx generalizing f with
  | hole => simpa [plug] using hf
  | inAnd pre post c ih =>
    simp only [Ctx.clean, Bool.and_eq_true] at hc
    simp only [plug, Builder.And, Filter.Err, errList_append,
      errList_of_clean hc.1.1]
    simp [errList, ih f hf hc.2, errList_of_clean hc.1.2]
  | inOr pre post c ih =>
    simp only [Ctx.clean, Bool.and_eq_true] at hc
    simp only [plug, Builder.Or, Filter.Err, errList_append,
      errList_of_clean hc.1.1]
    simp [errList, ih f hf hc.2, errList_of_clean hc.1.2]
  | inNot c ih =>
    simp only [Ctx.clean] at hc
    simp [plug, Builder.Not, Filter.Err, errList, ih f hf hc]

theorem plug_Err_isSome (b : Builder) (ctx : Ctx) (f : Filter)
    (hf : f.Err.isSome = true) : ((plug b ctx f).Err).isSome = true := by
  induction ctx generalizing f with
  | hole => simpa [plug] using hf
  | inAnd pre post c ih =>
    obtain ⟨e, he⟩ := Option.isSome_iff_exists.mp (ih f hf)
    simp only [plug, Builder.And, Filter.Err]
    have hmem : plug b c f ∈ pre ++ plug b c f :: post := by simp
    simpa using errList_mem_some hmem he
  | inOr pre post c ih =>
    obtain ⟨e, he⟩ := Option.isSome_iff_exists.mp (ih f hf)
    simp only [plug, Builder.Or, Filter.Err]
    have hmem : plug b c f ∈ pre ++ plug b c f :: post := by simp
    simpa using errList_mem_some hmem he
  | inNot c ih =>
    obtain ⟨e, he⟩ := Option.isSome_iff_exists.mp (ih f hf)
    simp [plug, Builder.Not, Filter.Err, errList, he]

theorem newStep_fold (metaFields : List FieldMeta)
    (acc : List FieldSpec × (String → Option FieldSpec)) :
    (metaFields.foldl newStep acc).1 = acc.1 ++ entriesOf metaFields ∧
    ∀ name, (metaFields.foldl newStep acc).2 name =
      match lastMatch name (entriesOf metaFields) with
      | some e => some e
      | none => acc.2 name := by
  induction metaFields generalizing acc with
  | nil => simp [entriesOf, lastMatch]
  | cons m rest ih =>
    simp only [List.foldl_cons]
    by_cases h : resolveFieldName m = "-" ∨ resolveFieldName m = ""
    · have hstep : newStep acc m = acc := by simp [newStep, h]
      have hentry : entryOf m = none := by simp [entryOf, h]
      rw [hstep]
      simpa [entriesOf, List.filterMap_cons, hentry] using ih acc
    · have hentry : entryOf m =
          some ⟨resolveFieldName m, m.name,
            resolveFieldKind m.kind m.typeName⟩ := by
        simp [entryOf, h]
      have hstep : newStep acc m =
          (acc.1 ++ [⟨resolveFieldName m, m.name,
             resolveFieldKind m.kind m.typeName⟩],
           fun n => if n = resolveFieldName m then
             some ⟨resolveFieldName m, m.name,
               resolveFieldKind m.kind m.typeName⟩
             else acc.2 n) := by
        simp [newStep, h]
      rw [hstep]
      obtain ⟨ih1, ih2⟩ := ih (acc.1 ++ [⟨resolveFieldName m, m.name,
        resolveFieldKind m.kind m.typeName⟩],
        fun n => if n = resolveFieldName m then
          some ⟨resolveFieldName m, m.name,
            resolveFieldKind m.kind m.typeName⟩
          else acc.2 n)
      constructor
      · rw [ih1]
        simp [entriesOf, hentry, List.filterMap_cons]
      · intro name
        rw [ih2 name]
        simp only [entriesOf, List.filterMap_cons, hentry, lastMatch]
        cases hl : lastMatch name (List.filterMap entryOf rest) with
        | some r => simp [hl]
        | none =>
          by_cases hn : name = resolveFieldName m
          · subst hn
            simp [hl]
          · have hn' : ¬(resolveFieldName m = name) := fun hh => hn hh.symm
            simp [hl, hn, hn']

theorem makeFilter_op_value (fb : FieldBuilder) (op : Op) (v : Value) :
    (fb.makeFilter op v).op = op ∧ (fb.makeFilter op v).value = v := by
  unfold FieldBuilder.makeFilter
  cases fb.err with
  | some e => simp [Filter.op, Filter.value]
  | none =>
    cases fb.validateValue op v <;> simp [Filter.op, Filter.value]

theorem makeFilter_comparison (fb : FieldBuilder) (fs : FieldSpec)
    (hspec : fb.spec = some fs) (hnoerr : fb.err = none) (op : Op)
    (hop : isComparisonOp op = true) (v : Value) :
    (fb.makeFilter op v).err =
      if isNumericKind fs.Kind then none
      else some (.invalidFilter (opKindMsg op fs.Kind fb.field)) := by
  have hops : op = .Gt ∨ op = .Gte ∨ op = .Lt ∨ op = .Lte := by
    revert hop
    cases op <;> simp [isComparisonOp]
  have key : ∀ o : Op, o = .Gt ∨ o = .Gte ∨ o = .Lt ∨ o = .Lte →
      (fb.makeFilter o v).err =
        if isNumericKind fs.Kind then none
        else some (.invalidFilter (opKindMsg o fs.Kind fb.field)) := by
    intro o ho
    by_cases hk : isNumericKind fs.Kind
    · rcases ho with h | h | h | h <;> subst h <;>
        simp [FieldBuilder.makeFilter, hnoerr, FieldBuilder.validateValue,
          hspec, isComparisonOp, hk, Filter.err]
    · rcases ho with h | h | h | h <;> subst h <;>
        simp [FieldBuilder.makeFilter, hnoerr, FieldBuilder.validateValue,
          hspec, isComparisonOp, hk, Filter.err]
  exact key op hops

/-! ## Claims -/

/-- Claim C10: calling the tree-wide error check on a nil `*Filter`
returns nil rather than failing, so checking an absent filter is safe. -/
theorem claim_C10_nil_receiver_err : ErrP none = none := rfl

/-- Claim C2: the tree-wide error check is a depth-first pre-order
traversal returning the first node-level error (the node's own error
first, then the children scanned left to right, recursing), with no
aggregation, and none when no node carries an error. -/
theorem claim_C2_err_is_preorder_first_error (f : Filter) :
    f.Err = firstErrPre f :=
  Err_eq_preorder_firstErr f

/-- Claim C3 (code bug): the claim expects all thirteen operator tokens
to parse, but `parseOp` recognizes only the nine tokens `eq`, `ne`,
`gt`, `gte`, `lt`, `lte`, `in`, `and`, `or`; the four tokens `not`,
`nin`, `like`, `contains` — used by `builder.go` and expected to parse
by the repository's own spec tests — fail as unknown operators. -/
theorem claim_C3_parseOp_missing_tokens :
    parseOp "eq" = .ok .Eq ∧ parseOp "ne" = .ok .Ne ∧
    parseOp "gt" = .ok .Gt ∧ parseOp "gte" = .ok .Gte ∧
    parseOp "lt" = .ok .Lt ∧ parseOp "lte" = .ok .Lte ∧
    parseOp "in" = .ok .In ∧ parseOp "and" = .ok .And ∧
    parseOp "or" = .ok .Or ∧
    parseOp "not" = .error (.invalidFilter "unknown operator \"not\"") ∧
    parseOp "nin" = .error (.invalidFilter "unknown operator \"nin\"") ∧
    parseOp "like" = .error (.invalidFilter "unknown operator \"like\"") ∧
    parseOp "contains"
      = .error (.invalidFilter "unknown operator \"contains\"") :=
  ⟨rfl, rfl, rfl, rfl, rfl, rfl, rfl, rfl, rfl, rfl, rfl, rfl, rfl⟩

/-- Claim C4 (code bug): a `not` spec with exactly one child should
convert to a `Not` node with no error, but `parseOp` rejects the token
`not`, so `FromSpec` returns an unknown-operator `InvalidFilter` error
and a node whose operator is the zero value `Eq`, not `Not` — against
the repository's own `TestBuilder_FromSpec_Not`. -/
theorem claim_C4_not_spec_rejected :
    (bW.FromSpec (some (.mk "not" "" .vnull
        [.mk "eq" "category" (.vstr "spam") []]))).err
      = some (.invalidFilter "unknown operator \"not\"") ∧
    (bW.FromSpec (some (.mk "not" "" .vnull
        [.mk "eq" "category" (.vstr "spam") []]))).op
      ≠ .Not :=
  ⟨rfl, by decide⟩

/-- Claim C5: `FromSpec` with `and` or `or` and zero children yields an
`InvalidFilter` error naming the operator, while the direct
`Builder.And`/`Builder.Or` combinators accept zero filters with no
error, on the node or tree-wide. -/
theorem claim_C5_logical_arity_asymmetry (b : Builder) :
    (b.FromSpec (some (.mk "and" "" .vnull []))).err
      = some (.invalidFilter "and requires at least one child") ∧
    (b.FromSpec (some (.mk "or" "" .vnull []))).err
      = some (.invalidFilter "or requires at least one child") ∧
    (b.And []).err = none ∧ (b.Or []).err = none ∧
    (b.And []).Err = none ∧ (b.Or []).Err = none :=
  ⟨rfl, rfl, rfl, rfl, rfl, rfl⟩

/-- Claim C1: `Where` on a name absent from the catalog returns a field
builder carrying a deferred field-not-found error without raising; every
operator call on it yields a filter carrying that same error with the
supplied value still recorded; and the tree-wide check still reports the
error (exactly, when the surrounding siblings are clean; detected, in
any context) after arbitrary nesting inside `And`/`Or`/`Not`. -/
theorem claim_C1_absent_field_deferred_error (b : Builder) (name : String)
    (habs : b.fields name = none) :
    (b.Where name).err
      = some (.fieldNotFound ("field not found: " ++ name)) ∧
    (∀ op v, (b.Where name).makeFilter op v
      = .mk op name v []
          (some (.fieldNotFound ("field not found: " ++ name)))) ∧
    (∀ op v ctx, Ctx.clean ctx = true →
      (plug b ctx ((b.Where name).makeFilter op v)).Err
        = some (.fieldNotFound ("field not found: " ++ name))) ∧
    (∀ op v ctx,
      ((plug b ctx ((b.Where name).makeFilter op v)).Err).isSome
        = true) := by
  have hw : b.Where name =
      ⟨name, none, some (.fieldNotFound ("field not found: " ++ name))⟩ := by
    simp [Builder.Where, habs]
  refine ⟨by rw [hw], ?_, ?_, ?_⟩
  · intro op v
    rw [hw]
    rfl
  · intro op v ctx hc
    refine plug_Err_of_clean b ctx _ _ ?_ hc
    rw [hw]
    rfl
  · intro op v ctx
    refine plug_Err_isSome b ctx _ ?_
    rw [hw]
    rfl

/-- Witness for C1 at the concrete builder `bW`, the absent name
`missing`, the operator `Gt`, and nesting `Not (And [clean leaf, hole])`. -/
theorem claim_C1_witness :
    bW.fields "missing" = none ∧
    Ctx.clean (.inNot (.inAnd [(bW.Where "category").Eq (.vstr "tech")]
      [] .hole)) = true ∧
    (plug bW (.inNot (.inAnd [(bW.Where "category").Eq (.vstr "tech")]
        [] .hole)) ((bW.Where "missing").Gt (.vint 1))).Err
      = some (.fieldNotFound "field not found: missing") :=
  ⟨rfl, rfl,
    (claim_C1_absent_field_deferred_error bW "missing" rfl).2.2.1 .Gt
      (.vint 1)
      (.inNot (.inAnd [(bW.Where "category").Eq (.vstr "tech")] [] .hole))
      rfl⟩

/-- Claim C6: on a resolved field, each comparison operator attaches an
`InvalidFilter` error exactly when the field kind is not numeric
(`Int`/`Float`), whatever the value supplied. -/
theorem claim_C6_comparison_numeric_only (b : Builder) (field : String)
    (fs : FieldSpec) (hres : b.fields field = some fs) (v : Value) :
    ((b.Where field).Gt v).err
      = (if isNumericKind fs.Kind then none
         else some (.invalidFilter (opKindMsg .Gt fs.Kind field))) ∧
    ((b.Where field).Gte v).err
      = (if isNumericKind fs.Kind then none
         else some (.invalidFilter (opKindMsg .Gte fs.Kind field))) ∧
    ((b.Where field).Lt v).err
      = (if isNumericKind fs.Kind then none
         else some (.invalidFilter (opKindMsg .Lt fs.Kind field))) ∧
    ((b.Where field).Lte v).err
      = (if isNumericKind fs.Kind then none
         else some (.invalidFilter (opKindMsg .Lte fs.Kind field))) := by
  have hw : b.Where field = ⟨field, some fs, none⟩ := by
    simp [Builder.Where, hres]
  refine ⟨?_, ?_, ?_, ?_⟩ <;> rw [hw]
  · exact makeFilter_comparison ⟨field, some fs, none⟩ fs rfl rfl .Gt rfl v
  · exact makeFilter_comparison ⟨field, some fs, none⟩ fs rfl rfl .Gte rfl v
  · exact makeFilter_comparison ⟨field, some fs, none⟩ fs rfl rfl .Lt rfl v
  · exact makeFilter_comparison ⟨field, some fs, none⟩ fs rfl rfl .Lte rfl v

/-- Witness for C6: `Lt` on the Float field `score` attaches no error;
`Gt` on the String field `category` attaches the kind-mismatch error. -/
theorem claim_C6_witness :
    bW.fields "score" = some ⟨"score", "Score", .KindFloat⟩ ∧
    ((bW.Where "score").Lt (.vfloat 1 2)).err = none ∧
    bW.fields "category" = some ⟨"category", "Category", .KindString⟩ ∧
    ((bW.Where "category").Gt (.vstr "x")).err
      = some (.invalidFilter
          "operator gt not valid for string field category") :=
  ⟨rfl,
   ((claim_C6_comparison_numeric_only bW "score"
      ⟨"score", "Score", .KindFloat⟩ rfl (.vfloat 1 2)).2.2.1).trans rfl,
   rfl,
   ((claim_C6_comparison_numeric_only bW "category"
      ⟨"category", "Category", .KindString⟩ rfl (.vstr "x")).1).trans rfl⟩

/-- Claim C7 counterexample: two declared fields both resolving to the
external name `x` produce a catalog whose names are not unique, and the
index consulted by `Where` maps `x` to the second-declared field, not
the first. -/
theorem claim_C7_counterexample :
    (New "Dup" dupMeta).spec.Fields.map FieldSpec.Name = ["x", "x"] ∧
    ¬ ((New "Dup" dupMeta).spec.Fields.map FieldSpec.Name).Nodup ∧
    (New "Dup" dupMeta).fields "x" = some ⟨"x", "B", .KindString⟩ ∧
    ¬ ((New "Dup" dupMeta).fields "x" = some ⟨"x", "A", .KindInt⟩) :=
  ⟨rfl, by decide, rfl, by decide⟩

/-- Claim C7 (amended): `New` performs no duplicate rejection: every
non-excluded declared field is appended to the catalog in declaration
order, so duplicate external names can coexist, and the index map
consulted by `Where` resolves a name to the last-declared field with
that external name. -/
theorem claim_C7_amended_no_duplicate_rejection (tn : String)
    (metaFields : List FieldMeta) :
    (New tn metaFields).spec.Fields = entriesOf metaFields ∧
    ∀ name, (New tn metaFields).fields name
      = lastMatch name (entriesOf metaFields) := by
  obtain ⟨h1, h2⟩ := newStep_fold metaFields ([], fun _ => none)
  constructor
  · simpa [New] using h1
  · intro name
    have h := h2 name
    simp only [New]
    rw [h]
    cases lastMatch name (entriesOf metaFields) <;> simp

/-- Claim C8 counterexample: `FromSpec` with operator `in` and the
scalar value `5` on a resolved field yields a filter whose tree-wide
error check reports no error at all — the scalar is wrapped into a
one-element sequence before validation, so no `InvalidFilter` error is
produced. -/
theorem claim_C8_counterexample :
    (bW.FromSpec (some (.mk "in" "category" (.vint 5) []))).Err = none ∧
    (bW.FromSpec (some (.mk "in" "category" (.vint 5) []))).value
      = .vseq [.vint 5] :=
  ⟨rfl, rfl⟩

/-- Claim C8 (amended): `validateInValue` does reject a non-slice value
at the `makeFilter` level, but no public path supplies one: the fluent
`In`/`Nin` wrap their variadic arguments in a slice, and `FromSpec`
passes a non-generic value as a single variadic argument, so operator
`in` with a scalar value yields an error-free filter whose value is the
one-element sequence holding the scalar. -/
theorem claim_C8_amended_in_scalar_wrapped (b : Builder) (field : String)
    (fs : FieldSpec) (hres : b.fields field = some fs) (v : Value) :
    (v.isSlice = false →
      ((b.Where field).makeFilter .In v).err
        = some (.invalidFilter "In operator requires slice of values")) ∧
    (v.isGenericSeq = false →
      (b.FromSpec (some (.mk "in" field v []))).err = none ∧
      (b.FromSpec (some (.mk "in" field v []))).value = .vseq [v]) := by
  have hw : b.Where field = ⟨field, some fs, none⟩ := by
    simp [Builder.Where, hres]
  constructor
  · intro hv
    rw [hw]
    simp [FieldBuilder.makeFilter, FieldBuilder.validateValue,
      validateInValue, hv, Filter.err]
  · intro hv
    have hconv : b.FromSpec (some (.mk "in" field v []))
        = fromInSpec (b.Where field) v := by
      simp [Builder.FromSpec, Builder.fromSpecSome,
        show parseOp "in" = .ok .In from rfl, Builder.fromFieldSpec]
    have hwrap : fromInSpec (b.Where field) v = (b.Where field).In [v] := by
      cases v <;> simp_all [fromInSpec, Value.isGenericSeq]
    rw [hconv, hwrap, hw]
    exact ⟨rfl, rfl⟩

/-- Witness for C8 at the concrete builder `bW`, field `category` and
the scalar value `7`. -/
theorem claim_C8_witness :
    bW.fields "category" = some ⟨"category", "Category", .KindString⟩ ∧
    Value.isSlice (.vint 7) = false ∧
    ((bW.Where "category").makeFilter .In (.vint 7)).err
      = some (.invalidFilter "In operator requires slice of values") ∧
    (bW.FromSpec (some (.mk "in" "category" (.vint 7) []))).err = none :=
  ⟨rfl, rfl,
   (claim_C8_amended_in_scalar_wrapped bW "category"
      ⟨"category", "Category", .KindString⟩ rfl (.vint 7)).1 rfl,
   ((claim_C8_amended_in_scalar_wrapped bW "category"
      ⟨"category", "Category", .KindString⟩ rfl (.vint 7)).2 rfl).1⟩

/-- Claim C9: in `FromSpec`, a generic decoded sequence value for `in`
is expanded element-wise, producing a filter whose value is exactly that
sequence of elements, while a concrete pre-typed sequence is passed
through as a single argument, producing a one-element sequence holding
the whole typed sequence. -/
theorem claim_C9_in_value_expansion (b : Builder) (field : String)
    (xs : List Value) :
    ((b.FromSpec (some (.mk "in" field (.vseq xs) []))).op = .In ∧
     (b.FromSpec (some (.mk "in" field (.vseq xs) []))).value
       = .vseq xs) ∧
    ((b.FromSpec (some (.mk "in" field (.vtyped xs) []))).op = .In ∧
     (b.FromSpec (some (.mk "in" field (.vtyped xs) []))).value
       = .vseq [.vtyped xs]) := by
  have hgen : b.FromSpec (some (.mk "in" field (.vseq xs) []))
      = (b.Where field).In xs := by
    simp [Builder.FromSpec, Builder.fromSpecSome,
      show parseOp "in" = .ok .In from rfl, Builder.fromFieldSpec,
      fromInSpec]
  have htyp : b.FromSpec (some (.mk "in" field (.vtyped xs) []))
      = (b.Where field).In [.vtyped xs] := by
    simp [Builder.FromSpec, Builder.fromSpecSome,
      show parseOp "in" = .ok .In from rfl, Builder.fromFieldSpec,
      fromInSpec]
  rw [hgen, htyp]
  exact ⟨makeFilter_op_value (b.Where field) .In (.vseq xs),
    makeFilter_op_value (b.Where field) .In (.vseq [.vtyped xs])⟩

end Vecna
